import Mathlib

/-!
Verification of the End-LVM-data-collector session pipeline.

This file gives a shallow embedding, in Lean 4, of the parts of the
repository that the specification talks about: the input-event model and
the windowed `drain_events` operation (`input/src/lib.rs`), the virtual-key
name table (`keyboard_key_name`), the wheel-delta sign extension
(`input/src/rawinput.rs`), the thought-line formatting and the per-step
pipeline (`app/src/pipeline.rs`), the ffmpeg frame writer and the
line-buffered JSONL writers (`writer/src/lib.rs`), and the session
packaging file walk (`gui/src/lib.rs`).  Machine integers are modelled as
`Nat`/`Int` with explicit bounds where overflow matters; fallible
operations return `Except`; OS side effects (child process, file system)
are modelled as explicit state or effect traces.
-/

/-- Mouse buttons, from `collector_core::MouseButton`. -/
inductive MouseButton where
  | Left
  | Right
  | Middle
  | X1
  | X2
deriving DecidableEq

/-- Event payload, from `collector_core::InputEventKind`.  `key` is a
symbolic key name; mouse deltas are signed 32-bit values modelled as `Int`. -/
inductive InputEventKind where
  | KeyDown (key : String)
  | KeyUp (key : String)
  | MouseButton (button : MouseButton) (is_down : Bool)
  | MouseMove (dx dy : Int)
  | MouseWheel (delta : Int)
deriving DecidableEq

/-- A timestamped input event, from `collector_core::InputEvent`.
`qpc_ts` is a 64-bit monotonic tick count, modelled as `Nat`. -/
structure InputEvent where
  qpc_ts : Nat
  kind : InputEventKind
deriving DecidableEq

/-- Helper for `strContains`: does `pat` occur at the head of the list? -/
def startsWithChars : List Char → List Char → Bool
  | _, [] => true
  | [], _ :: _ => false
  | a :: l, b :: p => a = b && startsWithChars l p

/-- Helper for `strContains`: does `pat` occur anywhere in the list? -/
def hasSubChars : List Char → List Char → Bool
  | [], pat => pat.isEmpty
  | a :: rest, pat => startsWithChars (a :: rest) pat || hasSubChars rest pat

/-- Rust `str::contains` for a literal pattern: substring containment. -/
def strContains (s pat : String) : Bool :=
  hasSubChars s.toList pat.toList

/-- `format_thought_line` from `app/src/pipeline.rs`: wrap a thought in the
`<|thought_start|>`/`<|thought_end|>` delimiters unless it is empty (bare
delimiter pair) or already carries both delimiters (passed through). -/
def format_thought_line (content : String) : String :=
  if content = "" then
    "<|thought_start|><|thought_end|>"
  else if strContains content "<|thought_start|>" && strContains content "<|thought_end|>" then
    content
  else
    "<|thought_start|>" ++ content ++ " <|thought_end|>"

/-- The letter table `LETTERS` from `keyboard_key_name` in `input/src/lib.rs`. -/
def LETTERS : List String :=
  ["A", "B", "C", "D", "E", "F", "G", "H", "I", "J", "K", "L", "M", "N", "O", "P",
   "Q", "R", "S", "T", "U", "V", "W", "X", "Y", "Z"]

/-- `keyboard_key_name` from `input/src/lib.rs`: map a virtual-key code to
its symbolic name, or `none` for codes outside the fixed table.  The Rust
`match` arms are rendered as a chain of conditionals; the `0x41..=0x5A`
range arm indexes the `LETTERS` array at `vk - 0x41`. -/
def keyboard_key_name (vk : Nat) : Option String :=
  if 0x41 ≤ vk ∧ vk ≤ 0x5A then some (LETTERS.getD (vk - 0x41) "")
  else if vk = 0x31 then some "one"
  else if vk = 0x32 then some "two"
  else if vk = 0x33 then some "three"
  else if vk = 0x34 then some "four"
  else if vk = 0x35 then some "five"
  else if vk = 0x36 then some "six"
  else if vk = 0x37 then some "seven"
  else if vk = 0x38 then some "eight"
  else if vk = 0x39 then some "nine"
  else if vk = 0x70 then some "One"
  else if vk = 0x71 then some "Two"
  else if vk = 0x72 then some "Three"
  else if vk = 0x73 then some "Four"
  else if vk = 0x74 then some "Five"
  else if vk = 0x75 then some "Six"
  else if vk = 0x76 then some "Seven"
  else if vk = 0x77 then some "Eight"
  else if vk = 0x78 then some "Nine"
  else if vk = 0x79 then some "Ten"
  else if vk = 0x7A then some "Eleven"
  else if vk = 0x7B then some "Twelve"
  else if vk = 0x10 then some "Shift"
  else if vk = 0x11 then some "Ctrl"
  else if vk = 0x12 then some "Alt"
  else if vk = 0x20 then some "Space"
  else if vk = 0x1B then some "Esc"
  else if vk = 0x09 then some "Tab"
  else if vk = 0x0D then some "Enter"
  else if vk = 0x26 then some "Up"
  else if vk = 0x28 then some "Down"
  else if vk = 0x25 then some "Left"
  else if vk = 0x27 then some "Right"
  else none

/-- The spec's key-name table, letter range: `0x41..0x5A → "A".."Z"`. -/
def specLetterNames : List String :=
  ["A", "B", "C", "D", "E", "F", "G", "H", "I", "J", "K", "L", "M", "N", "O", "P",
   "Q", "R", "S", "T", "U", "V", "W", "X", "Y", "Z"]

/-- The spec's key-name table, digit range: `0x31..0x39 → "one".."nine"`. -/
def specDigitNames : List String :=
  ["one", "two", "three", "four", "five", "six", "seven", "eight", "nine"]

/-- The spec's key-name table, function-key range: `0x70..0x7B → "One".."Twelve"`. -/
def specFunctionKeyNames : List String :=
  ["One", "Two", "Three", "Four", "Five", "Six", "Seven", "Eight", "Nine",
   "Ten", "Eleven", "Twelve"]

/-- The key-name table exactly as the specification states it: the three
ranges above plus the individually listed codes; every other code maps to
`none` (dropped). -/
def specKeyName (vk : Nat) : Option String :=
  if 0x41 ≤ vk ∧ vk ≤ 0x5A then some (specLetterNames.getD (vk - 0x41) "")
  else if 0x31 ≤ vk ∧ vk ≤ 0x39 then some (specDigitNames.getD (vk - 0x31) "")
  else if 0x70 ≤ vk ∧ vk ≤ 0x7B then some (specFunctionKeyNames.getD (vk - 0x70) "")
  else if vk = 0x10 then some "Shift"
  else if vk = 0x11 then some "Ctrl"
  else if vk = 0x12 then some "Alt"
  else if vk = 0x20 then some "Space"
  else if vk = 0x1B then some "Esc"
  else if vk = 0x09 then some "Tab"
  else if vk = 0x0D then some "Enter"
  else if vk = 0x26 then some "Up"
  else if vk = 0x28 then some "Down"
  else if vk = 0x25 then some "Left"
  else if vk = 0x27 then some "Right"
  else none

/-- The first loop of `RawInputCollector::drain_events` / the first loop of
`MockInputCollector::drain_events` (`input/src/lib.rs`): discard pending
events while the front one has `qpc_ts < start`. -/
def dropBeforeStart : List InputEvent → Nat → List InputEvent
  | [], _ => []
  | ev :: rest, start => if ev.qpc_ts < start then dropBeforeStart rest start else ev :: rest

/-- The second loop of both `drain_events` implementations: move pending
events into the output while the front one has `qpc_ts < end`; the rest
stays buffered.  Returns `(out, remaining)`. -/
def takeUntilEnd : List InputEvent → Nat → List InputEvent × List InputEvent
  | [], _ => ([], [])
  | ev :: rest, stop =>
    if ev.qpc_ts < stop then
      let p := takeUntilEnd rest stop
      (ev :: p.1, p.2)
    else ([], ev :: rest)

/-- `RawInputCollector::drain_events` from `input/src/lib.rs`: first
`drain_into` appends the newly `arrived` channel events to the back of the
deque `buffer`, then the two front-popping loops run.  Returns the drained
window and the new buffer. -/
def rawDrainEvents (buffer arrived : List InputEvent) (start stop : Nat) :
    List InputEvent × List InputEvent :=
  takeUntilEnd (dropBeforeStart (buffer ++ arrived) start) stop

/-- `MockInputCollector` state from `input/src/lib.rs`: a fixed event list
and a cursor index. -/
structure MockInputCollector where
  events : List InputEvent
  index : Nat
deriving DecidableEq

/-- `MockInputCollector::drain_events` from `input/src/lib.rs`.  The two
index-advancing `while` loops walk the suffix `events.drop index`; they are
the same skip/collect loops as the deque version, so they are expressed
through `dropBeforeStart`/`takeUntilEnd` on that suffix, with the index
advanced past every skipped and every returned event. -/
def mockDrainEvents (c : MockInputCollector) (start stop : Nat) :
    List InputEvent × MockInputCollector :=
  let pending := c.events.drop c.index
  let afterSkip := dropBeforeStart pending start
  let out := (takeUntilEnd afterSkip stop).1
  (out, ⟨c.events, c.index + (pending.length - afterSkip.length) + out.length⟩)

/-- A mock collector whose event list is not in timestamp order. -/
def unsortedMock : MockInputCollector :=
  ⟨[⟨100, InputEventKind.KeyDown "A"⟩, ⟨50, InputEventKind.KeyDown "B"⟩], 0⟩

/-- Sorted demo buffer for the `drain_events_ordered` witness. -/
def demoBuffer : List InputEvent :=
  [⟨10, InputEventKind.KeyDown "W"⟩]

/-- Sorted demo arrivals for the `drain_events_ordered` witness. -/
def demoArrived : List InputEvent :=
  [⟨70, InputEventKind.KeyUp "W"⟩, ⟨100, InputEventKind.MouseMove 3 (-1)⟩,
   ⟨250, InputEventKind.KeyDown "A"⟩]

/-- Sorted demo mock collector for the `drain_events_ordered` witness. -/
def demoMock : MockInputCollector :=
  ⟨demoBuffer ++ demoArrived, 0⟩

/-- `io::ErrorKind` values used by the repository. -/
inductive IoErrorKind where
  | InvalidInput
  | NotFound
  | UnexpectedEof
  | Other
deriving DecidableEq

/-- An `io::Error`: a kind plus a message. -/
structure IoError where
  kind : IoErrorKind
  message : String
deriving DecidableEq

/-- The `RI_MOUSE_WHEEL` button flag tested in `handle_raw_input`. -/
def RI_MOUSE_WHEEL : Nat := 0x0400

/-- The cast chain `(mouse.usButtonData as i16) as i32` from the wheel
branch of `handle_raw_input` in `input/src/rawinput.rs`: reinterpret the
16-bit field as a signed 16-bit integer, then sign-extend.  For an input
below `2^16` this is the value itself when below `2^15`, and the value
minus `2^16` otherwise. -/
def signExtend16 (x : Nat) : Int :=
  if x < 0x8000 then (x : Int) else (x : Int) - 0x10000

/-- The wheel branch of `handle_raw_input` (`input/src/rawinput.rs`): when
`usButtonFlags` carries `RI_MOUSE_WHEEL`, emit one `MouseWheel` event at
the message timestamp whose delta is the sign-extended `usButtonData`. -/
def wheelEvents (flags usButtonData ts : Nat) : List InputEvent :=
  if flags &&& RI_MOUSE_WHEEL ≠ 0 then
    [⟨ts, InputEventKind.MouseWheel (signExtend16 usButtonData)⟩]
  else
    []

/-- `usize::saturating_mul` on the 64-bit target the writer builds for. -/
def satMul64 (a b : Nat) : Nat :=
  min (a * b) (2 ^ 64 - 1)

/-- `FfmpegConfig` from `writer/src/lib.rs` (the path fields and the
command line built from them are outside the model; `width`/`height`/`fps`
/`crf`/`gop` are `u32`). -/
structure FfmpegConfig where
  width : Nat
  height : Nat
  fps : Nat
  crf : Nat
  gop : Nat
deriving DecidableEq

/-- `FfmpegWriter` from `writer/src/lib.rs`: the expected BGRA frame size
and the encoder child's stdin, modelled as the byte sequence written so
far. -/
structure FfmpegWriter where
  frame_bytes : Nat
  stdin : List Nat
deriving DecidableEq

/-- `FfmpegWriter::spawn`: computes
`frame_bytes = width.saturating_mul(height).saturating_mul(4)` (as
`usize`) and starts with nothing written to the encoder. -/
def FfmpegWriter.spawn (config : FfmpegConfig) : FfmpegWriter :=
  { frame_bytes := satMul64 (satMul64 config.width config.height) 4,
    stdin := [] }

/-- `FfmpegWriter::write_frame`: reject a frame whose byte length differs
from `frame_bytes` with an `InvalidInput` error and leave the writer
untouched; otherwise forward exactly the frame's bytes to the encoder
stdin.  Returns the call's result together with the post-state. -/
def FfmpegWriter.write_frame (w : FfmpegWriter) (frame : List Nat) :
    Except IoError Unit × FfmpegWriter :=
  if frame.length ≠ w.frame_bytes then
    (Except.error ⟨IoErrorKind.InvalidInput,
      "frame buffer size does not match expected BGRA size"⟩, w)
  else
    (Except.ok (), { w with stdin := w.stdin ++ frame })

/-- The operations `FfmpegWriter::finish` performs on the encoder child,
in order: flush stdin, drop (close) stdin — signalling EOF — and wait for
the child to exit. -/
inductive EncoderEffect where
  | FlushStdin
  | CloseStdin
  | WaitChild
deriving DecidableEq

/-- A child process exit status; `success()` means exit code zero. -/
structure ExitStatus where
  code : Int
deriving DecidableEq

/-- `std::process::ExitStatus::success`. -/
def ExitStatus.success (s : ExitStatus) : Bool :=
  s.code = 0

/-- `FfmpegWriter::finish` from `writer/src/lib.rs`:
`self.stdin.flush()?`, `drop(self.stdin)`, `self.child.wait()?`, then an
error unless the exit status is success.  The outcomes of the two
fallible OS calls are explicit inputs; the return value records the
sequence of encoder-facing effects performed and the call's result. -/
def FfmpegWriter.finish (flushResult : Except IoError Unit)
    (waitResult : Except IoError ExitStatus) :
    List EncoderEffect × Except IoError Unit :=
  match flushResult with
  | Except.error e => ([EncoderEffect.FlushStdin], Except.error e)
  | Except.ok _ =>
    match waitResult with
    | Except.error e =>
      ([EncoderEffect.FlushStdin, EncoderEffect.CloseStdin,
        EncoderEffect.WaitChild], Except.error e)
    | Except.ok status =>
      ([EncoderEffect.FlushStdin, EncoderEffect.CloseStdin,
        EncoderEffect.WaitChild],
       if status.success then Except.ok ()
       else Except.error ⟨IoErrorKind.Other,
         "ffmpeg exited with " ++ toString status.code⟩)

/-- `JsonlWriter` bookkeeping state from `writer/src/lib.rs`: the line
counter (`u64`), the clamped line-flush threshold (`u64`) and the
time-flush interval.  The `last_flush` instant is modelled by passing the
elapsed time to `after_write` explicitly. -/
structure JsonlWriter where
  line_count : Nat
  flush_every_lines : Nat
  flush_every : Nat
deriving DecidableEq

/-- `JsonlWriter::new`: the line counter starts at zero and
`flush_every_lines` is clamped to at least 1 (`flush_every_lines.max(1)`). -/
def JsonlWriter.new (flush_every_lines flush_every : Nat) : JsonlWriter :=
  { line_count := 0,
    flush_every_lines := max flush_every_lines 1,
    flush_every := flush_every }

/-- `JsonlWriter::after_write`: saturating-increment the `u64` line
counter, then flush when `line_count % flush_every_lines == 0` or the
elapsed time since the last flush reached `flush_every`.  Returns the
post-state and whether a flush was triggered. -/
def JsonlWriter.after_write (w : JsonlWriter) (elapsed : Nat) :
    JsonlWriter × Bool :=
  let lc := min (w.line_count + 1) (2 ^ 64 - 1)
  ({ w with line_count := lc },
   decide (lc % w.flush_every_lines = 0) || decide (w.flush_every ≤ elapsed))

mutual
/-- A directory tree under the `sessions` root, for the packaging walk in
`gui/src/lib.rs`.  Paths are component lists relative to the `sessions`
directory. -/
inductive FsTree where
  | file (size : Nat)
  | dir (entries : FsEntries)
/-- The entry list of a directory in an `FsTree`. -/
inductive FsEntries where
  | nil
  | cons (name : String) (child : FsTree) (rest : FsEntries)
end

/-- Rust `str::ends_with` (suffix check), written over character lists so
that it evaluates inside the kernel. -/
def strEndsWith (s pat : String) : Bool :=
  decide (s.toList.reverse.take pat.toList.length = pat.toList.reverse)

/-- `is_tmp_dir` from `gui/src/lib.rs`: the path's final component
(`Path::file_name`) ends with `".tmp"`; a path without a final component
is not a tmp dir. -/
def is_tmp_dir (path : List String) : Bool :=
  match path.getLast? with
  | some name => strEndsWith name ".tmp"
  | none => false

/-- Helper for `pathComponents`: split a character list at `'/'`. -/
def splitComponents : List Char → List Char → List String
  | [], acc => [String.mk acc.reverse]
  | c :: rest, acc =>
    if c = '/' then String.mk acc.reverse :: splitComponents rest []
    else splitComponents rest (c :: acc)

/-- `PathBuf::join(name)` appends one component per separator-delimited
piece of `name`; this computes those pieces. -/
def pathComponents (name : String) : List String :=
  splitComponents name.toList []

/-- The body of the `while let Some(current) = stack.pop()` walk of
`collect_files` (`gui/src/lib.rs`), over one directory's entries: a popped
path whose final component ends with `".tmp"` is skipped entirely (so its
contents are never pushed), a file is recorded with its size, and a
directory's entries are walked in turn. -/
def collectEntries : List String → FsEntries → List (List String × Nat)
  | _, FsEntries.nil => []
  | path, FsEntries.cons name child rest =>
    (if is_tmp_dir (path ++ [name]) then []
     else
       match child with
       | FsTree.file size => [(path ++ [name], size)]
       | FsTree.dir es => collectEntries (path ++ [name]) es) ++
    collectEntries path rest
termination_by structural _ es => es

/-- The walk of `collect_files` starting from one popped target path: the
tmp check applies to the target itself before anything is collected. -/
def collectDir (path : List String) (t : FsTree) : List (List String × Nat) :=
  if is_tmp_dir path then []
  else
    match t with
    | FsTree.file size => [(path, size)]
    | FsTree.dir es => collectEntries path es

/-- Find a directory entry by name. -/
def findEntry : String → FsEntries → Option FsTree
  | _, FsEntries.nil => none
  | name, FsEntries.cons n child rest =>
    if n = name then some child else findEntry name rest

/-- Resolve a component path against the tree; `none` models a path that
does not exist on disk (such a target is silently skipped, since it is
neither `is_dir` nor `is_file`). -/
def lookupPath : List String → FsTree → Option FsTree
  | [], t => some t
  | _ :: _, FsTree.file _ => none
  | name :: rest, FsTree.dir es =>
    match findEntry name es with
    | some child => lookupPath rest child
    | none => none

/-- The entry filter of `list_session_dirs`: keep directories whose name
does not end with `".tmp"`. -/
def sessionDirNames : FsEntries → List (List String)
  | FsEntries.nil => []
  | FsEntries.cons name child rest =>
    (match child with
     | FsTree.dir _ => if strEndsWith name ".tmp" then [] else [[name]]
     | FsTree.file _ => []) ++ sessionDirNames rest

/-- `list_session_dirs` from `gui/src/lib.rs` over the `sessions` root. -/
def list_session_dirs : FsTree → List (List String)
  | FsTree.file _ => []
  | FsTree.dir es => sessionDirNames es

/-- `resolve_targets` from `gui/src/lib.rs`: an empty request lists the
non-tmp session directories; otherwise each requested name is joined onto
the root (splitting at path separators, as `PathBuf::join` does). -/
def resolve_targets (fs : FsTree) (names : List String) : List (List String) :=
  if names.isEmpty then list_session_dirs fs
  else names.map pathComponents

/-- Lexicographic path comparison, for the final `sort_by` of
`collect_files`. -/
def pathLeb : List String → List String → Bool
  | [], _ => true
  | _ :: _, [] => false
  | a :: as, b :: bs => if a = b then pathLeb as bs else decide (a < b)

/-- `collect_files` from `gui/src/lib.rs`: walk every target, skipping any
popped path whose final component ends with `".tmp"`, then sort the
collected `(path, size)` pairs by path (Rust's stable `sort_by`, modelled
by insertion sort).  Both `package_sessions` and the async packaging path
build the zip from exactly this list. -/
def collect_files (fs : FsTree) (targets : List (List String)) :
    List (List String × Nat) :=
  List.insertionSort (fun a b => pathLeb a.1 b.1 = true)
    (targets.map (fun target =>
      match lookupPath target fs with
      | some t => collectDir target t
      | none => [])).flatten

/-- A sessions root holding an in-progress session `a.tmp` (with
`b/f.txt` inside) and a finished session `done` (with `g.txt`). -/
def demoSessionsFs : FsTree :=
  FsTree.dir
    (FsEntries.cons "a.tmp"
      (FsTree.dir (FsEntries.cons "b"
        (FsTree.dir (FsEntries.cons "f.txt" (FsTree.file 3) FsEntries.nil))
        FsEntries.nil))
      (FsEntries.cons "done"
        (FsTree.dir (FsEntries.cons "g.txt" (FsTree.file 1) FsEntries.nil))
        FsEntries.nil))

def entriesWeight : FsEntries → Nat
  | FsEntries.nil => 1
  | FsEntries.cons _ child rest =>
    (match child with
     | FsTree.file _ => 1
     | FsTree.dir es => 1 + entriesWeight es) + entriesWeight rest
termination_by structural es => es

/-- `mouse_button_name` from `input/src/lib.rs`. -/
def mouse_button_name : MouseButton → String
  | MouseButton.Left => "MouseLeft"
  | MouseButton.Right => "MouseRight"
  | MouseButton.Middle => "MouseMiddle"
  | MouseButton.X1 => "MouseX1"
  | MouseButton.X2 => "MouseX2"

/-- Modelled from the spec: `CursorProvider` (§3) of the aggregator crate,
which is not under `src/`.  The `f32` coordinates are modelled by their
32-bit patterns, since the claims only compare them for byte identity. -/
structure CursorProvider where
  visible : Bool
  x_norm : Nat
  y_norm : Nat
deriving DecidableEq

/-- Modelled from the spec: a completed down→up key press (§4.5), from the
missing aggregator crate. -/
structure KeyPress where
  key : String
  down_ts : Nat
  up_ts : Nat
deriving DecidableEq

/-- Modelled from the spec: per-button click counts (§3 `mouse_clicks`),
from the missing aggregator crate. -/
structure MouseClicks where
  left : Nat
  right : Nat
  middle : Nat
  x1 : Nat
  x2 : Nat
deriving DecidableEq

/-- Increment one button's click count. -/
def MouseClicks.incr (c : MouseClicks) : MouseButton → MouseClicks
  | MouseButton.Left => { c with left := c.left + 1 }
  | MouseButton.Right => { c with right := c.right + 1 }
  | MouseButton.Middle => { c with middle := c.middle + 1 }
  | MouseButton.X1 => { c with x1 := c.x1 + 1 }
  | MouseButton.X2 => { c with x2 := c.x2 + 1 }

/-- Modelled from the spec: `ActionSnapshot` (§3), from the missing
aggregator crate / `collector_core`. -/
structure ActionSnapshot where
  step_index : Nat
  qpc_ts : Nat
  is_foreground : Bool
  held_keys : List String
  key_presses : List KeyPress
  mouse_dx_total : Int
  mouse_dy_total : Int
  mouse_wheel_total : Int
  mouse_clicks : MouseClicks
  cursor : CursorProvider
deriving DecidableEq

/-- Modelled from the spec: `AggregatedWindow` (§3), from the missing
aggregator crate. -/
structure AggregatedWindow where
  snapshot : ActionSnapshot
  compiled_action : String
deriving DecidableEq

/-- Modelled from the spec: `AggregatorState` (§3), from the missing
aggregator crate: the open presses (held key, press-start tick) in press
order.  The spec also mentions a sub-threshold move remainder and a
compiled-action fingerprint, but gives no dynamics for them, so they are
omitted. -/
structure AggregatorState where
  held : List (String × Nat)
deriving DecidableEq

/-- `AggregatorState::new` starts with nothing held. -/
def AggregatorState.new : AggregatorState := ⟨[]⟩

/-- Modelled from the spec: the within-window accumulators of §4.5 step 1,
from the missing aggregator crate. -/
structure WindowAcc where
  presses : List KeyPress
  dx : Int
  dy : Int
  wheel : Int
  clicks : MouseClicks
deriving DecidableEq

/-- The press-start tick of an open press, if the key is held. -/
def lookupHeld (held : List (String × Nat)) (key : String) : Option Nat :=
  (held.find? (fun e => e.1 == key)).map (fun e => e.2)

/-- Close a key's open press (held keys are unique by construction). -/
def removeHeld (held : List (String × Nat)) (key : String) : List (String × Nat) :=
  held.filter (fun e => !(e.1 == key))

/-- Modelled from the spec (§4.5 step 1, missing aggregator crate): a down
transition records a press-start unless the key is already held (a repeat
is collapsed). -/
def applyDown (s : AggregatorState × WindowAcc) (key : String) (ts : Nat) :
    AggregatorState × WindowAcc :=
  match lookupHeld s.1.held key with
  | some _ => s
  | none => (⟨s.1.held ++ [(key, ts)]⟩, s.2)

/-- Modelled from the spec (§4.5 step 1, missing aggregator crate): an up
transition closes the matching press-start into this window's
`key_presses`; an unmatched up is discarded. -/
def applyUp (s : AggregatorState × WindowAcc) (key : String) (ts : Nat) :
    AggregatorState × WindowAcc :=
  match lookupHeld s.1.held key with
  | some down_ts =>
    (⟨removeHeld s.1.held key⟩,
     { s.2 with presses := s.2.presses ++ [⟨key, down_ts, ts⟩] })
  | none => s

/-- Modelled from the spec (§4.5 step 1, missing aggregator crate): fold
one event into the cross-step state and the window accumulators.  A mouse
button acts as its virtual key; a button-down also counts one click (§9:
the source counts clicks from the down event alone). -/
def applyEvent (s : AggregatorState × WindowAcc) (ev : InputEvent) :
    AggregatorState × WindowAcc :=
  match ev.kind with
  | InputEventKind.KeyDown k => applyDown s k ev.qpc_ts
  | InputEventKind.KeyUp k => applyUp s k ev.qpc_ts
  | InputEventKind.MouseButton b is_down =>
    if is_down then
      let s2 := applyDown s (mouse_button_name b) ev.qpc_ts
      (s2.1, { s2.2 with clicks := s2.2.clicks.incr b })
    else
      applyUp s (mouse_button_name b) ev.qpc_ts
  | InputEventKind.MouseMove dx dy =>
    (s.1, { s.2 with dx := s.2.dx + dx, dy := s.2.dy + dy })
  | InputEventKind.MouseWheel d =>
    (s.1, { s.2 with wheel := s.2.wheel + d })

/-- Sorted key names (§4.5 step 2). -/
def sortStrings (l : List String) : List String :=
  List.insertionSort (fun a b => a ≤ b) l

/-- Key presses in `down_ts` order (§4.5 step 3). -/
def sortPresses (l : List KeyPress) : List KeyPress :=
  List.insertionSort (fun a b => a.down_ts ≤ b.down_ts) l

/-- Compact boolean rendering used in the compiled cursor part. -/
def boolStr : Bool → String
  | true => "1"
  | false => "0"

/-- One completed key press rendered for the compiled line. -/
def pressPart (p : KeyPress) : String :=
  p.key ++ ":" ++ toString p.down_ts ++ "-" ++ toString p.up_ts

/-- Click parts in the fixed order Left, Right, Middle, X1, X2 (§4.5). -/
def clickParts (c : MouseClicks) : List String :=
  (if c.left ≠ 0 then ["MouseLeftx" ++ toString c.left] else []) ++
  (if c.right ≠ 0 then ["MouseRightx" ++ toString c.right] else []) ++
  (if c.middle ≠ 0 then ["MouseMiddlex" ++ toString c.middle] else []) ++
  (if c.x1 ≠ 0 then ["MouseX1x" ++ toString c.x1] else []) ++
  (if c.x2 ≠ 0 then ["MouseX2x" ++ toString c.x2] else [])

/-- Modelled from the spec (§4.5 step 3, missing aggregator crate): the
ordered optional body parts of the compiled line — held keys, presses,
clicks, movement when non-zero, wheel when non-zero, cursor when visible.
The source fixes the exact grammar; the spec leaves it open, so this is
one canonical rendering. -/
def compiledParts (snap : ActionSnapshot) : List String :=
  snap.held_keys ++
  snap.key_presses.map pressPart ++
  clickParts snap.mouse_clicks ++
  (if snap.mouse_dx_total ≠ 0 ∨ snap.mouse_dy_total ≠ 0 then
    ["move:" ++ toString snap.mouse_dx_total ++ "," ++ toString snap.mouse_dy_total]
   else []) ++
  (if snap.mouse_wheel_total ≠ 0 then
    ["wheel:" ++ toString snap.mouse_wheel_total] else []) ++
  (if snap.cursor.visible then
    ["cursor:" ++ boolStr snap.cursor.visible ++ "," ++
      toString snap.cursor.x_norm ++ "," ++ toString snap.cursor.y_norm]
   else [])

/-- The compiled line: delimiters around the space-separated body; an
empty snapshot yields the bare delimiter pair. -/
def compileAction (snap : ActionSnapshot) : String :=
  "<|action_start|>" ++ String.intercalate " " (compiledParts snap) ++ "<|action_end|>"

/-- Modelled from the spec: `aggregate_window_with_compiled` (§4.5), the
missing aggregator crate's entry point called by
`SessionPipeline::process_window`.  Pure in its inputs and the explicit
state: fold the events, snapshot the held set sorted, and compose the
compiled line. -/
def aggregate_window_with_compiled (events : List InputEvent)
    (window_start _window_end step_index : Nat) (is_foreground : Bool)
    (cursor : CursorProvider) (st : AggregatorState) :
    AggregatedWindow × AggregatorState :=
  let r := events.foldl applyEvent (st, ⟨[], 0, 0, 0, ⟨0, 0, 0, 0, 0⟩⟩)
  let snap : ActionSnapshot :=
    { step_index := step_index
      qpc_ts := window_start
      is_foreground := is_foreground
      held_keys := sortStrings (r.1.held.map Prod.fst)
      key_presses := sortPresses r.2.presses
      mouse_dx_total := r.2.dx
      mouse_dy_total := r.2.dy
      mouse_wheel_total := r.2.wheel
      mouse_clicks := r.2.clicks
      cursor := cursor }
  (⟨snap, compileAction snap⟩, r.1)

/-- Modelled from the spec: `SessionWriter` (§4.6), which is not under
`src/` (only `SessionWriters` and `FfmpegWriter` are).  Its three text
sinks are the appended lines; the video sink is the `FfmpegWriter` model
from `writer/src/lib.rs`. -/
structure SessionWriterM where
  actions : List ActionSnapshot
  compiled : List String
  thoughts : List String
  video : FfmpegWriter
deriving DecidableEq

/-- Modelled from the spec: `SessionWriter::create` — empty sinks and a
freshly spawned encoder expecting `frame_bytes` bytes per frame. -/
def SessionWriterM.create (frame_bytes : Nat) : SessionWriterM :=
  ⟨[], [], [], ⟨frame_bytes, []⟩⟩

/-- `SessionWriters::write_window` from `writer/src/lib.rs`, lifted to the
session writer: append the snapshot line to `actions.jsonl` and the
compiled line to `compiled.jsonl`. -/
def SessionWriterM.write_window (w : SessionWriterM) (aw : AggregatedWindow) :
    SessionWriterM :=
  { w with actions := w.actions ++ [aw.snapshot],
           compiled := w.compiled ++ [aw.compiled_action] }

/-- Modelled from the spec: `SessionWriter::write_frame` forwards to
`FfmpegWriter::write_frame` (which is in `src/` and size-checks). -/
def SessionWriterM.write_frame (w : SessionWriterM) (frame : List Nat) :
    Except IoError Unit × SessionWriterM :=
  let r := w.video.write_frame frame
  (r.1, { w with video := r.2 })

/-- Modelled from the spec: `SessionWriter::write_thought` appends one
line to `thoughts.txt`. -/
def SessionWriterM.write_thought (w : SessionWriterM) (line : String) :
    SessionWriterM :=
  { w with thoughts := w.thoughts ++ [line] }

/-- `SessionPipeline` from `app/src/pipeline.rs`: the session writer and
the cross-step aggregator state. -/
structure SessionPipeline where
  writer : SessionWriterM
  state : AggregatorState
deriving DecidableEq

/-- `SessionPipeline::create` from `app/src/pipeline.rs`: a fresh writer
and `AggregatorState::new()` (the path/flush configuration is outside the
model; `frame_bytes` is the encoder's expected frame size). -/
def SessionPipeline.create (frame_bytes : Nat) : SessionPipeline :=
  ⟨SessionWriterM.create frame_bytes, AggregatorState.new⟩

/-- One step's inputs to `process_window` (`app/src/pipeline.rs`). -/
structure WindowInput where
  events : List InputEvent
  window_start : Nat
  window_end : Nat
  step_index : Nat
  is_foreground : Bool
  cursor : CursorProvider
  frame : List Nat
  thought : Option String
deriving DecidableEq

/-- The aggregator call of `process_window`, with one step's inputs. -/
def aggregateOf (st : AggregatorState) (inp : WindowInput) :
    AggregatedWindow × AggregatorState :=
  aggregate_window_with_compiled inp.events inp.window_start inp.window_end
    inp.step_index inp.is_foreground inp.cursor st

/-- `SessionPipeline::process_window` from `app/src/pipeline.rs`:
aggregate the window (mutating the state), write the window lines, forward
the frame (which may fail the size check — then the thought line is not
written), format and write the thought line.  Returns the call's result
and the pipeline's post-state. -/
def process_window (p : SessionPipeline) (inp : WindowInput) :
    Except IoError Unit × SessionPipeline :=
  let a := aggregateOf p.state inp
  let w1 := p.writer.write_window a.1
  let fr := w1.write_frame inp.frame
  match fr.1 with
  | Except.error e => (Except.error e, ⟨fr.2, a.2⟩)
  | Except.ok _ =>
    (Except.ok (),
     ⟨fr.2.write_thought (format_thought_line (inp.thought.getD "")), a.2⟩)

/-- Modelled from the spec: the step loop (§4.8) of the missing
`run_realtime` driver, restricted to what C1 needs — the successive
`process_window` calls on the already-sampled per-step inputs, aborting on
the first error. -/
def runPipeline : SessionPipeline → List WindowInput →
    Except IoError Unit × SessionPipeline
  | p, [] => (Except.ok (), p)
  | p, inp :: rest =>
    match process_window p inp with
    | (Except.ok _, q) => runPipeline q rest
    | (Except.error e, q) => (Except.error e, q)

/-- The per-step aggregator outputs of a run, with the state threaded. -/
def stepOutputs (st : AggregatorState) : List WindowInput → List AggregatedWindow
  | [] => []
  | inp :: rest =>
    (aggregateOf st inp).1 :: stepOutputs (aggregateOf st inp).2 rest

/-- Two concrete steps for the `process_window_step_atomicity` witness:
a key press window and a wheel window, 4-byte frames. -/
def demoWindowInputs : List WindowInput :=
  [⟨[⟨10, InputEventKind.KeyDown "W"⟩, ⟨20, InputEventKind.KeyUp "W"⟩],
    0, 200, 0, true, ⟨false, 0, 0⟩, [0, 0, 0, 0], none⟩,
   ⟨[⟨250, InputEventKind.MouseWheel 120⟩],
    200, 400, 1, true, ⟨true, 500, 500⟩, [1, 2, 3, 4], some "plan"⟩]

theorem letters_eq_spec : LETTERS = specLetterNames := rfl

/-- Above the table's last code (`0x7B`), `keyboard_key_name` drops the code. -/
theorem keyboard_key_name_high (vk : Nat) (h : 0x7C ≤ vk) :
    keyboard_key_name vk = none := by
  delta keyboard_key_name
  iterate 33 rw [if_neg (by omega)]

/-- Above the table's last code (`0x7B`), the spec table drops the code. -/
theorem specKeyName_high (vk : Nat) (h : 0x7C ≤ vk) :
    specKeyName vk = none := by
  delta specKeyName
  iterate 14 rw [if_neg (by omega)]

set_option maxHeartbeats 1000000 in
/-- Below `0x7C` the two tables agree, checked by exhaustive evaluation. -/
theorem keyboard_key_name_low :
    ∀ vk : Nat, vk < 0x7C → keyboard_key_name vk = specKeyName vk := by
  decide

/-- C4: `format_thought_line` returns the bare delimiter pair on empty
input, passes input carrying both delimiters through verbatim, and
otherwise wraps the input with a space before the closing delimiter. -/
theorem format_thought_line_spec (x : String) :
    (x = "" → format_thought_line x = "<|thought_start|><|thought_end|>") ∧
    (strContains x "<|thought_start|>" = true → strContains x "<|thought_end|>" = true →
      format_thought_line x = x) ∧
    (x ≠ "" →
      (strContains x "<|thought_start|>" && strContains x "<|thought_end|>") = false →
      format_thought_line x = "<|thought_start|>" ++ x ++ " <|thought_end|>") := by
  refine ⟨?_, ?_, ?_⟩
  · intro h
    simp [format_thought_line, h]
  · intro h1 h2
    by_cases hx : x = ""
    · subst hx
      exact absurd h1 (by decide)
    · simp [format_thought_line, hx, h1, h2]
  · intro hx hb
    simp [format_thought_line, hx, hb]

/-- Witness for `format_thought_line_spec` at concrete inputs: the empty
string, a string carrying both delimiters, and a plain string. -/
theorem format_thought_line_spec_witness :
    format_thought_line "" = "<|thought_start|><|thought_end|>" ∧
    format_thought_line "<|thought_start|>plan <|thought_end|>" =
      "<|thought_start|>plan <|thought_end|>" ∧
    format_thought_line "plan" = "<|thought_start|>plan <|thought_end|>" :=
  ⟨(format_thought_line_spec "").1 rfl,
   (format_thought_line_spec "<|thought_start|>plan <|thought_end|>").2.1
     (by decide) (by decide),
   (format_thought_line_spec "plan").2.2 (by decide) (by decide)⟩

/-- C5: `keyboard_key_name` agrees with the specification's key-name table
on every virtual-key code: the three name ranges, the individually listed
codes, and `none` (dropped) everywhere else — in particular at `0x30` and
`0xFF`. -/
theorem keyboard_key_name_matches_spec_table :
    ∀ vk : Nat, keyboard_key_name vk = specKeyName vk := by
  intro vk
  rcases Nat.lt_or_ge vk 0x7C with h | h
  · exact keyboard_key_name_low vk h
  · rw [keyboard_key_name_high vk h, specKeyName_high vk h]

/-- C2 counterexample: `MockInputCollector::new` accepts an arbitrary event
list, and on an unsorted one (`qpc_ts` 100 then 50) `drain_events 60 200`
returns an event with `qpc_ts = 50 < start` and the returned timestamps
decrease — both halves of the claim fail. -/
theorem drain_events_counterexample :
    (mockDrainEvents unsortedMock 60 200).1.map InputEvent.qpc_ts = [100, 50] ∧
    ¬(∀ ev ∈ (mockDrainEvents unsortedMock 60 200).1,
        60 ≤ ev.qpc_ts ∧ ev.qpc_ts < 200) ∧
    ¬(mockDrainEvents unsortedMock 60 200).1.Pairwise
        (fun a b => a.qpc_ts ≤ b.qpc_ts) := by
  refine ⟨by decide, ?_, by decide⟩
  intro h
  exact absurd (show (60 ≤ 50 ∧ 50 < 200) from
    h ⟨50, InputEventKind.KeyDown "B"⟩ (by decide)) (by decide)

/-- `dropBeforeStart` returns a suffix of its input. -/
theorem dropBeforeStart_suffix (l : List InputEvent) (start : Nat) :
    (dropBeforeStart l start).IsSuffix l := by
  induction l with
  | nil => simp [dropBeforeStart]
  | cons ev rest ih =>
    by_cases h : ev.qpc_ts < start
    · simp only [dropBeforeStart, if_pos h]
      exact ih.trans (List.suffix_cons ev rest)
    · simp [dropBeforeStart, if_neg h]

/-- On a timestamp-sorted list, every event surviving `dropBeforeStart`
has `start ≤ qpc_ts`. -/
theorem dropBeforeStart_lower (l : List InputEvent) (start : Nat)
    (h : l.Pairwise (fun a b => a.qpc_ts ≤ b.qpc_ts)) :
    ∀ ev ∈ dropBeforeStart l start, start ≤ ev.qpc_ts := by
  induction l with
  | nil => intro ev hev; simp [dropBeforeStart] at hev
  | cons e rest ih =>
    rcases List.pairwise_cons.mp h with ⟨hhead, htail⟩
    by_cases hlt : e.qpc_ts < start
    · simpa only [dropBeforeStart, if_pos hlt] using ih htail
    · simp only [dropBeforeStart, if_neg hlt]
      intro ev hev
      rcases List.mem_cons.mp hev with rfl | hmem
      · omega
      · exact le_trans (by omega) (hhead ev hmem)

/-- Every event returned by `takeUntilEnd` has `qpc_ts < end`. -/
theorem takeUntilEnd_upper (l : List InputEvent) (stop : Nat) :
    ∀ ev ∈ (takeUntilEnd l stop).1, ev.qpc_ts < stop := by
  induction l with
  | nil => intro ev hev; simp [takeUntilEnd] at hev
  | cons e rest ih =>
    by_cases hlt : e.qpc_ts < stop
    · simp only [takeUntilEnd, if_pos hlt]
      intro ev hev
      rcases List.mem_cons.mp hev with rfl | hmem
      · exact hlt
      · exact ih ev hmem
    · simp [takeUntilEnd, if_neg hlt]

/-- `takeUntilEnd`'s output is a prefix of its input. -/
theorem takeUntilEnd_prefixOf (l : List InputEvent) (stop : Nat) :
    (takeUntilEnd l stop).1.IsPrefix l := by
  induction l with
  | nil => simp [takeUntilEnd]
  | cons e rest ih =>
    by_cases hlt : e.qpc_ts < stop
    · simp only [takeUntilEnd, if_pos hlt]
      exact (List.prefix_cons_inj e).mpr ih
    · simp [takeUntilEnd, if_neg hlt]

/-- Core of the amended C2: on a timestamp-sorted pending list, the
skip/collect loop pair returns only events in `[start, stop)`, in
non-decreasing timestamp order. -/
theorem drainCore_spec (l : List InputEvent) (start stop : Nat)
    (h : l.Pairwise (fun a b => a.qpc_ts ≤ b.qpc_ts)) :
    (∀ ev ∈ (takeUntilEnd (dropBeforeStart l start) stop).1,
      start ≤ ev.qpc_ts ∧ ev.qpc_ts < stop) ∧
    (takeUntilEnd (dropBeforeStart l start) stop).1.Pairwise
      (fun a b => a.qpc_ts ≤ b.qpc_ts) := by
  have hdrop := dropBeforeStart_lower l start h
  have hsorted : (dropBeforeStart l start).Pairwise (fun a b => a.qpc_ts ≤ b.qpc_ts) :=
    h.sublist (dropBeforeStart_suffix l start).sublist
  constructor
  · intro ev hev
    have hmem : ev ∈ dropBeforeStart l start :=
      (takeUntilEnd_prefixOf (dropBeforeStart l start) stop).sublist.mem hev
    exact ⟨hdrop ev hmem, takeUntilEnd_upper _ stop ev hev⟩
  · exact hsorted.sublist (takeUntilEnd_prefixOf (dropBeforeStart l start) stop).sublist

/-- C2 (amended): provided the collector's pending events are already in
non-decreasing timestamp order — which the monotonic QPC clock guarantees
for `RawInputCollector` and which a well-formed mock satisfies — every
event returned by `drain_events(start, end)` has `start ≤ qpc_ts < end`,
and the returned timestamps are non-decreasing, for both collectors. -/
theorem drain_events_ordered (buffer arrived : List InputEvent)
    (c : MockInputCollector) (start stop : Nat)
    (hraw : (buffer ++ arrived).Pairwise (fun a b => a.qpc_ts ≤ b.qpc_ts))
    (hmock : (c.events.drop c.index).Pairwise (fun a b => a.qpc_ts ≤ b.qpc_ts)) :
    (∀ ev ∈ (rawDrainEvents buffer arrived start stop).1,
      start ≤ ev.qpc_ts ∧ ev.qpc_ts < stop) ∧
    (rawDrainEvents buffer arrived start stop).1.Pairwise
      (fun a b => a.qpc_ts ≤ b.qpc_ts) ∧
    (∀ ev ∈ (mockDrainEvents c start stop).1,
      start ≤ ev.qpc_ts ∧ ev.qpc_ts < stop) ∧
    (mockDrainEvents c start stop).1.Pairwise
      (fun a b => a.qpc_ts ≤ b.qpc_ts) := by
  have hr := drainCore_spec (buffer ++ arrived) start stop hraw
  have hm := drainCore_spec (c.events.drop c.index) start stop hmock
  exact ⟨hr.1, hr.2, hm.1, hm.2⟩

/-- Witness for `drain_events_ordered` at a concrete sorted buffer,
window `[60, 200)`. -/
theorem drain_events_ordered_witness :
    (∀ ev ∈ (rawDrainEvents demoBuffer demoArrived 60 200).1,
      60 ≤ ev.qpc_ts ∧ ev.qpc_ts < 200) ∧
    (rawDrainEvents demoBuffer demoArrived 60 200).1.Pairwise
      (fun a b => a.qpc_ts ≤ b.qpc_ts) ∧
    (∀ ev ∈ (mockDrainEvents demoMock 60 200).1,
      60 ≤ ev.qpc_ts ∧ ev.qpc_ts < 200) ∧
    (mockDrainEvents demoMock 60 200).1.Pairwise
      (fun a b => a.qpc_ts ≤ b.qpc_ts) :=
  drain_events_ordered demoBuffer demoArrived demoMock 60 200 (by decide) (by decide)

/-- C8: a raw mouse message with the wheel flag set emits exactly one
`MouseWheel` event whose delta is `usButtonData` sign-extended from 16
bits: congruent to the field modulo `2^16`, in the signed 16-bit range,
negative exactly when the field is `≥ 0x8000`, and equal to the field when
it is `< 0x8000`. -/
theorem wheel_delta_sign_extended (flags data ts : Nat)
    (hdata : data < 0x10000) (hflag : flags &&& RI_MOUSE_WHEEL ≠ 0) :
    wheelEvents flags data ts =
      [⟨ts, InputEventKind.MouseWheel (signExtend16 data)⟩] ∧
    signExtend16 data % 0x10000 = (data : Int) % 0x10000 ∧
    (-0x8000 ≤ signExtend16 data ∧ signExtend16 data < 0x8000) ∧
    (0x8000 ≤ data → signExtend16 data < 0) ∧
    (data < 0x8000 → signExtend16 data = (data : Int)) := by
  refine ⟨by simp [wheelEvents, hflag], ?_, ?_, ?_, ?_⟩ <;>
    simp only [signExtend16] <;> split_ifs <;> omega

/-- Witness for `wheel_delta_sign_extended` at `usButtonData = 0xFF88`
(delta `-120`) with only the wheel flag set. -/
theorem wheel_delta_sign_extended_witness :
    wheelEvents 0x0400 0xFF88 5 =
      [⟨5, InputEventKind.MouseWheel (signExtend16 0xFF88)⟩] ∧
    signExtend16 0xFF88 % 0x10000 = ((0xFF88 : Nat) : Int) % 0x10000 ∧
    (-0x8000 ≤ signExtend16 0xFF88 ∧ signExtend16 0xFF88 < 0x8000) ∧
    (0x8000 ≤ 0xFF88 → signExtend16 0xFF88 < 0) ∧
    (0xFF88 < 0x8000 → signExtend16 0xFF88 = ((0xFF88 : Nat) : Int)) :=
  wheel_delta_sign_extended 0x0400 0xFF88 5 (by decide) (by decide)

/-- C6: `write_frame` errors on a frame whose length is not
`width·height·4` and then writes nothing (the writer state is unchanged);
on a matching length it succeeds and appends exactly the frame's bytes to
the encoder stdin.  The hypothesis `width·height·4 < 2^64` (true of every
frame that can exist in memory) makes the `usize` saturating products
exact. -/
theorem write_frame_spec (config : FfmpegConfig) (w : FfmpegWriter)
    (frame : List Nat)
    (hsize : config.width * config.height * 4 < 2 ^ 64) :
    (FfmpegWriter.spawn config).frame_bytes =
      config.width * config.height * 4 ∧
    (frame.length ≠ w.frame_bytes →
      w.write_frame frame =
        (Except.error ⟨IoErrorKind.InvalidInput,
          "frame buffer size does not match expected BGRA size"⟩, w)) ∧
    (frame.length = w.frame_bytes →
      w.write_frame frame =
        (Except.ok (), { w with stdin := w.stdin ++ frame })) := by
  refine ⟨?_, ?_, ?_⟩
  · simp only [FfmpegWriter.spawn, satMul64]
    omega
  · intro h
    simp [FfmpegWriter.write_frame, h]
  · intro h
    simp [FfmpegWriter.write_frame, h]

/-- Witness for `write_frame_spec`: a `2×2` config; a 3-byte frame is
rejected without effect, a 16-byte frame is forwarded verbatim. -/
theorem write_frame_spec_witness :
    (FfmpegWriter.spawn ⟨2, 2, 5, 20, 10⟩).frame_bytes = 2 * 2 * 4 ∧
    ((List.replicate 3 0).length ≠ (FfmpegWriter.spawn ⟨2, 2, 5, 20, 10⟩).frame_bytes →
      (FfmpegWriter.spawn ⟨2, 2, 5, 20, 10⟩).write_frame (List.replicate 3 0) =
        (Except.error ⟨IoErrorKind.InvalidInput,
          "frame buffer size does not match expected BGRA size"⟩,
         FfmpegWriter.spawn ⟨2, 2, 5, 20, 10⟩)) ∧
    ((List.replicate 3 0).length = (FfmpegWriter.spawn ⟨2, 2, 5, 20, 10⟩).frame_bytes →
      (FfmpegWriter.spawn ⟨2, 2, 5, 20, 10⟩).write_frame (List.replicate 3 0) =
        (Except.ok (),
         { FfmpegWriter.spawn ⟨2, 2, 5, 20, 10⟩ with
            stdin := (FfmpegWriter.spawn ⟨2, 2, 5, 20, 10⟩).stdin ++
              List.replicate 3 0 })) :=
  write_frame_spec ⟨2, 2, 5, 20, 10⟩ (FfmpegWriter.spawn ⟨2, 2, 5, 20, 10⟩)
    (List.replicate 3 0) (by decide)

/-- C7: when the OS calls themselves succeed, `finish` flushes the
encoder stdin, closes it (EOF), waits for the child, and returns `Ok`
exactly when the exit status is success; a non-zero exit code always
yields an error. -/
theorem ffmpeg_finish_spec (status : ExitStatus) :
    (FfmpegWriter.finish (Except.ok ()) (Except.ok status)).1 =
      [EncoderEffect.FlushStdin, EncoderEffect.CloseStdin,
       EncoderEffect.WaitChild] ∧
    ((FfmpegWriter.finish (Except.ok ()) (Except.ok status)).2 =
        Except.ok () ↔ status.success = true) ∧
    (status.code ≠ 0 →
      (FfmpegWriter.finish (Except.ok ()) (Except.ok status)).2 =
        Except.error ⟨IoErrorKind.Other,
          "ffmpeg exited with " ++ toString status.code⟩) := by
  refine ⟨rfl, ?_, ?_⟩
  · by_cases h : status.success
    · simp [FfmpegWriter.finish, h]
    · simp [FfmpegWriter.finish, h]
  · intro h
    have hs : status.success = false := by
      simp [ExitStatus.success, h]
    simp [FfmpegWriter.finish, hs]

/-- Witness for `ffmpeg_finish_spec` at exit code `1`. -/
theorem ffmpeg_finish_spec_witness :
    (FfmpegWriter.finish (Except.ok ()) (Except.ok ⟨1⟩)).1 =
      [EncoderEffect.FlushStdin, EncoderEffect.CloseStdin,
       EncoderEffect.WaitChild] ∧
    ((FfmpegWriter.finish (Except.ok ()) (Except.ok ⟨1⟩)).2 =
        Except.ok () ↔ ExitStatus.success ⟨1⟩ = true) ∧
    ((1 : Int) ≠ 0 →
      (FfmpegWriter.finish (Except.ok ()) (Except.ok ⟨1⟩)).2 =
        Except.error ⟨IoErrorKind.Other,
          "ffmpeg exited with " ++ toString (1 : Int)⟩) :=
  ffmpeg_finish_spec ⟨1⟩

/-- C10: `new` clamps `flush_every_lines` to at least 1, so the modulo
divisor in `after_write` is never zero — in particular a writer built
with `flush_every_lines = 0` gets threshold 1; `after_write` never
changes the threshold; and a writer with threshold 1 flushes after every
written line. -/
theorem jsonl_flush_clamp (fel fe : Nat) (w : JsonlWriter) (elapsed : Nat) :
    1 ≤ (JsonlWriter.new fel fe).flush_every_lines ∧
    (JsonlWriter.new 0 fe).flush_every_lines = 1 ∧
    (JsonlWriter.after_write w elapsed).1.flush_every_lines =
      w.flush_every_lines ∧
    (w.flush_every_lines = 1 →
      (JsonlWriter.after_write w elapsed).2 = true) := by
  refine ⟨by simp only [JsonlWriter.new]; omega, by simp [JsonlWriter.new], rfl, ?_⟩
  intro h
  simp [JsonlWriter.after_write, h, Nat.mod_one]

/-- Witness for `jsonl_flush_clamp`: a writer built with
`flush_every_lines = 0` flushes on every line. -/
theorem jsonl_flush_clamp_witness :
    1 ≤ (JsonlWriter.new 0 1000).flush_every_lines ∧
    (JsonlWriter.new 0 1000).flush_every_lines = 1 ∧
    (JsonlWriter.after_write (JsonlWriter.new 0 1000) 0).1.flush_every_lines =
      (JsonlWriter.new 0 1000).flush_every_lines ∧
    ((JsonlWriter.new 0 1000).flush_every_lines = 1 →
      (JsonlWriter.after_write (JsonlWriter.new 0 1000) 0).2 = true) :=
  jsonl_flush_clamp 0 1000 (JsonlWriter.new 0 1000) 0

/-- C9 counterexample: for the request naming the session `"a.tmp/b"`, the
target resolves to a path whose `".tmp"` component is not final, the tmp
check never fires, and `f.txt` — a file lying inside the in-progress
directory `a.tmp` — is added to the zip. -/
theorem package_tmp_counterexample :
    (["a.tmp", "b", "f.txt"], 3) ∈
      collect_files demoSessionsFs
        (resolve_targets demoSessionsFs ["a.tmp/b"]) ∧
    (["a.tmp", "b", "f.txt"] : List String).dropLast.any
      (fun c => strEndsWith c ".tmp") = true := by
  decide

theorem is_tmp_dir_concat (path : List String) (name : String) :
    is_tmp_dir (path ++ [name]) = strEndsWith name ".tmp" := by
  simp [is_tmp_dir, List.getLast?_concat]

theorem entriesWeight_nil : entriesWeight FsEntries.nil = 1 := rfl

theorem entriesWeight_cons_file (name : String) (size : Nat) (rest : FsEntries) :
    entriesWeight (FsEntries.cons name (FsTree.file size) rest) =
      1 + entriesWeight rest := by
  rw [entriesWeight.eq_def]

theorem entriesWeight_cons_dir (name : String) (es rest : FsEntries) :
    entriesWeight (FsEntries.cons name (FsTree.dir es) rest) =
      (1 + entriesWeight es) + entriesWeight rest := by
  rw [entriesWeight.eq_def]

theorem entriesWeight_pos (es : FsEntries) : 1 ≤ entriesWeight es := by
  cases es with
  | nil => simp [entriesWeight_nil]
  | cons name child rest =>
    cases child with
    | file size => rw [entriesWeight_cons_file]; omega
    | dir es2 => rw [entriesWeight_cons_dir]; omega

theorem collectEntries_nil (path : List String) :
    collectEntries path FsEntries.nil = [] := rfl

theorem collectEntries_cons_file (path : List String) (name : String)
    (size : Nat) (rest : FsEntries) :
    collectEntries path (FsEntries.cons name (FsTree.file size) rest) =
      (if is_tmp_dir (path ++ [name]) then [] else [(path ++ [name], size)]) ++
        collectEntries path rest := by
  rw [collectEntries.eq_def]

theorem collectEntries_cons_dir (path : List String) (name : String)
    (es rest : FsEntries) :
    collectEntries path (FsEntries.cons name (FsTree.dir es) rest) =
      (if is_tmp_dir (path ++ [name]) then []
       else collectEntries (path ++ [name]) es) ++
        collectEntries path rest := by
  rw [collectEntries.eq_def]

theorem collectEntries_comp : ∀ (n : Nat) (path : List String) (es : FsEntries),
    entriesWeight es ≤ n →
    ∀ p ∈ collectEntries path es, ∃ rest, rest ≠ [] ∧ p.1 = path ++ rest ∧
      ∀ c ∈ rest, strEndsWith c ".tmp" = false := by
  intro n
  induction n with
  | zero =>
    intro path es h
    have := entriesWeight_pos es
    omega
  | succ n ih =>
    intro path es hsize p hp
    cases es with
    | nil => simp [collectEntries_nil] at hp
    | cons name child rest =>
      cases child with
      | file size =>
        rw [entriesWeight_cons_file] at hsize
        rw [collectEntries_cons_file] at hp
        rcases List.mem_append.mp hp with hp | hp
        · by_cases htmp : is_tmp_dir (path ++ [name]) = true
          · simp [htmp] at hp
          · rw [if_neg htmp] at hp
            have hname : strEndsWith name ".tmp" = false := by
              rw [is_tmp_dir_concat] at htmp
              simpa using htmp
            refine ⟨[name], by simp, by simp [List.mem_singleton.mp hp], ?_⟩
            intro c hc
            rcases List.mem_singleton.mp hc with rfl
            exact hname
        · exact ih path rest (by omega) p hp
      | dir es2 =>
        rw [entriesWeight_cons_dir] at hsize
        have hpos := entriesWeight_pos es2
        have hpos2 := entriesWeight_pos rest
        rw [collectEntries_cons_dir] at hp
        rcases List.mem_append.mp hp with hp | hp
        · by_cases htmp : is_tmp_dir (path ++ [name]) = true
          · simp [htmp] at hp
          · rw [if_neg htmp] at hp
            have hname : strEndsWith name ".tmp" = false := by
              rw [is_tmp_dir_concat] at htmp
              simpa using htmp
            rcases ih (path ++ [name]) es2 (by omega) p hp with
              ⟨rest1, hne, heq, hall⟩
            refine ⟨name :: rest1, by simp, by simpa using heq, ?_⟩
            intro c hc
            rcases List.mem_cons.mp hc with rfl | hc
            · exact hname
            · exact hall c hc
        · exact ih path rest (by omega) p hp

theorem collectDir_comp (path : List String) (t : FsTree) :
    ∀ p ∈ collectDir path t,
      is_tmp_dir path = false ∧ ∃ rest, p.1 = path ++ rest ∧
        ∀ c ∈ rest, strEndsWith c ".tmp" = false := by
  intro p hp
  by_cases htmp : is_tmp_dir path = true
  · simp [collectDir, htmp] at hp
  · have htmp2 : is_tmp_dir path = false := by simpa using htmp
    refine ⟨htmp2, ?_⟩
    cases t with
    | file size =>
      simp [collectDir, htmp2] at hp
      exact ⟨[], by simp [hp], by simp⟩
    | dir es =>
      simp only [collectDir, htmp2, Bool.false_eq_true, if_false] at hp
      rcases collectEntries_comp (entriesWeight es) path es le_rfl p hp with
        ⟨rest, _, heq, hall⟩
      exact ⟨rest, heq, hall⟩

theorem sessionDirNames_comp : ∀ (n : Nat) (es : FsEntries),
    entriesWeight es ≤ n →
    ∀ d ∈ sessionDirNames es, ∃ nm, d = [nm] ∧ strEndsWith nm ".tmp" = false := by
  intro n
  induction n with
  | zero =>
    intro es h
    have := entriesWeight_pos es
    omega
  | succ n ih =>
    intro es hsize d hd
    cases es with
    | nil => simp [sessionDirNames] at hd
    | cons name child rest =>
      cases child with
      | file size =>
        rw [entriesWeight_cons_file] at hsize
        simp only [sessionDirNames, List.nil_append] at hd
        exact ih rest (by omega) d hd
      | dir es2 =>
        rw [entriesWeight_cons_dir] at hsize
        have hpos := entriesWeight_pos es2
        simp only [sessionDirNames, List.mem_append] at hd
        rcases hd with hd | hd
        · by_cases h : strEndsWith name ".tmp" = true
          · simp [h] at hd
          · simp [h] at hd
            exact ⟨name, hd, by simpa using h⟩
        · exact ih rest (by omega) d hd

theorem list_session_dirs_not_tmp (fs : FsTree) :
    ∀ d ∈ list_session_dirs fs, is_tmp_dir d = false := by
  intro d hd
  cases fs with
  | file size => simp [list_session_dirs] at hd
  | dir es =>
    rcases sessionDirNames_comp (entriesWeight es) es le_rfl d (by simpa [list_session_dirs] using hd) with
      ⟨n, rfl, hn⟩
    simpa [is_tmp_dir] using hn

/-- C9 (amended): for every packaging request whose session names are
single path components (no separator, as session names produced by the
recorder are), no file whose path below the sessions root contains a
component ending in `".tmp"` is ever added to the output zip — by either
`package_sessions` or the async packaging path, which share
`resolve_targets`/`collect_files` — and `list_session_dirs` never returns
a `".tmp"` directory. -/
theorem package_skips_tmp (fs : FsTree) (names : List String)
    (hnames : ∀ nm ∈ names, pathComponents nm = [nm]) :
    (∀ p ∈ collect_files fs (resolve_targets fs names),
      ∀ c ∈ p.1, strEndsWith c ".tmp" = false) ∧
    (∀ d ∈ list_session_dirs fs, is_tmp_dir d = false) := by
  refine ⟨?_, list_session_dirs_not_tmp fs⟩
  intro p hp c hc
  have hp2 : p ∈ ((resolve_targets fs names).map (fun target =>
      match lookupPath target fs with
      | some t => collectDir target t
      | none => [])).flatten := by
    have hperm := List.perm_insertionSort
      (fun a b : List String × Nat => pathLeb a.1 b.1 = true)
      (((resolve_targets fs names).map (fun target =>
        match lookupPath target fs with
        | some t => collectDir target t
        | none => [])).flatten)
    exact hperm.mem_iff.mp hp
  rcases List.mem_flatten.mp hp2 with ⟨l, hl, hpl⟩
  rcases List.mem_map.mp hl with ⟨target, htarget, rfl⟩
  have hsingle : ∃ nm, target = [nm] := by
    by_cases hempty : names.isEmpty
    · have : target ∈ list_session_dirs fs := by
        simpa [resolve_targets, hempty] using htarget
      rcases list_session_dirs_not_tmp fs target this with _
      cases fs with
      | file size => simp [list_session_dirs] at this
      | dir es =>
        rcases sessionDirNames_comp (entriesWeight es) es le_rfl target
          (by simpa [list_session_dirs] using this) with ⟨nm, rfl, _⟩
        exact ⟨nm, rfl⟩
    · simp only [resolve_targets, hempty, Bool.false_eq_true, if_false,
        List.mem_map] at htarget
      rcases htarget with ⟨nm, hnm, rfl⟩
      exact ⟨nm, hnames nm hnm⟩
  rcases hsingle with ⟨nm, rfl⟩
  rcases hpl with hpl
  cases hlk : lookupPath [nm] fs with
  | none => rw [hlk] at hpl; simp at hpl
  | some t =>
    rw [hlk] at hpl
    rcases collectDir_comp [nm] t p hpl with ⟨htmp, rest, heq, hall⟩
    have hnm2 : strEndsWith nm ".tmp" = false := by
      simpa [is_tmp_dir] using htmp
    rw [heq] at hc
    rcases List.mem_cons.mp (by simpa using hc) with rfl | hcr
    · exact hnm2
    · exact hall c hcr

/-- Witness for `package_skips_tmp`: packaging `["done", "a.tmp"]` out of
the demo root collects no path with a `".tmp"` component, and the listing
holds no tmp dir. -/
theorem package_skips_tmp_witness :
    (∀ p ∈ collect_files demoSessionsFs
        (resolve_targets demoSessionsFs ["done", "a.tmp"]),
      ∀ c ∈ p.1, strEndsWith c ".tmp" = false) ∧
    (∀ d ∈ list_session_dirs demoSessionsFs, is_tmp_dir d = false) :=
  package_skips_tmp demoSessionsFs ["done", "a.tmp"] (by decide)

/-- A successful `process_window` call appends exactly one entry to each
text sink, forwards exactly the frame's bytes, and advances the state. -/
theorem process_window_ok (p : SessionPipeline) (inp : WindowInput)
    (h : (process_window p inp).1 = Except.ok ()) :
    (process_window p inp).2 = ⟨
      { actions := p.writer.actions ++ [(aggregateOf p.state inp).1.snapshot],
        compiled := p.writer.compiled ++ [(aggregateOf p.state inp).1.compiled_action],
        thoughts := p.writer.thoughts ++
          [format_thought_line (inp.thought.getD "")],
        video := ⟨p.writer.video.frame_bytes,
          p.writer.video.stdin ++ inp.frame⟩ },
      (aggregateOf p.state inp).2⟩ := by
  by_cases hlen : inp.frame.length = p.writer.video.frame_bytes
  · simp [process_window, SessionWriterM.write_frame, FfmpegWriter.write_frame,
      SessionWriterM.write_window, SessionWriterM.write_thought, hlen]
  · exfalso
    simp [process_window, SessionWriterM.write_frame, FfmpegWriter.write_frame,
      SessionWriterM.write_window, hlen] at h

/-- A run whose calls all return `Ok` appends, across all four sinks, the
per-step outputs in step order. -/
theorem runPipeline_ok_appends : ∀ (inputs : List WindowInput) (p : SessionPipeline),
    (runPipeline p inputs).1 = Except.ok () →
    (runPipeline p inputs).2.writer.actions =
      p.writer.actions ++ (stepOutputs p.state inputs).map AggregatedWindow.snapshot ∧
    (runPipeline p inputs).2.writer.compiled =
      p.writer.compiled ++
        (stepOutputs p.state inputs).map AggregatedWindow.compiled_action ∧
    (runPipeline p inputs).2.writer.thoughts =
      p.writer.thoughts ++
        inputs.map (fun inp => format_thought_line (inp.thought.getD "")) ∧
    (runPipeline p inputs).2.writer.video.stdin =
      p.writer.video.stdin ++ (inputs.map WindowInput.frame).flatten := by
  intro inputs
  induction inputs with
  | nil =>
    intro p h
    simp [runPipeline, stepOutputs]
  | cons inp rest ih =>
    intro p h
    rcases hpw : process_window p inp with ⟨res, q⟩
    cases res with
    | error e =>
      rw [runPipeline, hpw] at h
      simp at h
    | ok u =>
      simp only [runPipeline, hpw] at h ⊢
      have hok : (process_window p inp).1 = Except.ok () := by rw [hpw]
      have hq : q = (process_window p inp).2 := by rw [hpw]
      rw [process_window_ok p inp hok] at hq
      subst hq
      rcases ih _ h with ⟨h1, h2, h3, h4⟩
      refine ⟨?_, ?_, ?_, ?_⟩
      · rw [h1]
        simp [stepOutputs]
      · rw [h2]
        simp [stepOutputs]
      · rw [h3]
        simp
      · rw [h4]
        simp

/-- C1: when every `process_window` call of a run returns `Ok`, the run
from a fresh pipeline leaves exactly one `actions.jsonl` line, one
`compiled.jsonl` line, one `thoughts.txt` line and one forwarded frame per
call, and the entries at offset `i` of all four sinks come from the `i`-th
call (the `i`-th step's aggregator output, thought, and frame). -/
theorem process_window_step_atomicity (frame_bytes : Nat)
    (inputs : List WindowInput)
    (h : (runPipeline (SessionPipeline.create frame_bytes) inputs).1 =
      Except.ok ()) :
    (runPipeline (SessionPipeline.create frame_bytes) inputs).2.writer.actions =
      (stepOutputs AggregatorState.new inputs).map AggregatedWindow.snapshot ∧
    (runPipeline (SessionPipeline.create frame_bytes) inputs).2.writer.compiled =
      (stepOutputs AggregatorState.new inputs).map AggregatedWindow.compiled_action ∧
    (runPipeline (SessionPipeline.create frame_bytes) inputs).2.writer.thoughts =
      inputs.map (fun inp => format_thought_line (inp.thought.getD "")) ∧
    (runPipeline (SessionPipeline.create frame_bytes) inputs).2.writer.video.stdin =
      (inputs.map WindowInput.frame).flatten ∧
    (runPipeline (SessionPipeline.create frame_bytes) inputs).2.writer.actions.length =
      inputs.length ∧
    (runPipeline (SessionPipeline.create frame_bytes) inputs).2.writer.compiled.length =
      inputs.length ∧
    (runPipeline (SessionPipeline.create frame_bytes) inputs).2.writer.thoughts.length =
      inputs.length := by
  rcases runPipeline_ok_appends inputs (SessionPipeline.create frame_bytes) h with
    ⟨h1, h2, h3, h4⟩
  simp only [SessionPipeline.create, SessionWriterM.create, List.nil_append]
    at h1 h2 h3 h4 ⊢
  have hlen : ∀ st : AggregatorState, ∀ l : List WindowInput,
      (stepOutputs st l).length = l.length := by
    intro st l
    induction l generalizing st with
    | nil => simp [stepOutputs]
    | cons a rest ih => simp [stepOutputs, ih]
  refine ⟨h1, h2, h3, h4, ?_, ?_, ?_⟩
  · rw [h1]
    simp [hlen]
  · rw [h2]
    simp [hlen]
  · rw [h3]
    simp

/-- Witness for `process_window_step_atomicity`: a concrete two-step run
with matching frame sizes succeeds and satisfies every conjunct. -/
theorem process_window_step_atomicity_witness :
    (runPipeline (SessionPipeline.create 4) demoWindowInputs).2.writer.actions =
      (stepOutputs AggregatorState.new demoWindowInputs).map AggregatedWindow.snapshot ∧
    (runPipeline (SessionPipeline.create 4) demoWindowInputs).2.writer.compiled =
      (stepOutputs AggregatorState.new demoWindowInputs).map AggregatedWindow.compiled_action ∧
    (runPipeline (SessionPipeline.create 4) demoWindowInputs).2.writer.thoughts =
      demoWindowInputs.map (fun inp => format_thought_line (inp.thought.getD "")) ∧
    (runPipeline (SessionPipeline.create 4) demoWindowInputs).2.writer.video.stdin =
      (demoWindowInputs.map WindowInput.frame).flatten ∧
    (runPipeline (SessionPipeline.create 4) demoWindowInputs).2.writer.actions.length =
      demoWindowInputs.length ∧
    (runPipeline (SessionPipeline.create 4) demoWindowInputs).2.writer.compiled.length =
      demoWindowInputs.length ∧
    (runPipeline (SessionPipeline.create 4) demoWindowInputs).2.writer.thoughts.length =
      demoWindowInputs.length :=
  process_window_step_atomicity 4 demoWindowInputs rfl

/-- C3: the aggregator is deterministic — two invocations with identical
events, window bounds, step index, foreground flag, cursor and initial
state produce identical (byte-identical, by `DecidableEq` structure
equality) `AggregatedWindow` results and post-states. -/
theorem aggregate_window_deterministic
    (e1 e2 : List InputEvent) (ws1 ws2 we1 we2 si1 si2 : Nat)
    (f1 f2 : Bool) (c1 c2 : CursorProvider) (st1 st2 : AggregatorState)
    (he : e1 = e2) (hws : ws1 = ws2) (hwe : we1 = we2) (hsi : si1 = si2)
    (hf : f1 = f2) (hc : c1 = c2) (hst : st1 = st2) :
    aggregate_window_with_compiled e1 ws1 we1 si1 f1 c1 st1 =
      aggregate_window_with_compiled e2 ws2 we2 si2 f2 c2 st2 := by
  subst he hws hwe hsi hf hc hst
  rfl

/-- Witness for `aggregate_window_deterministic` at a concrete window. -/
theorem aggregate_window_deterministic_witness :
    aggregate_window_with_compiled
      [⟨10, InputEventKind.KeyDown "W"⟩] 0 200 0 true ⟨false, 0, 0⟩
      AggregatorState.new =
    aggregate_window_with_compiled
      [⟨10, InputEventKind.KeyDown "W"⟩] 0 200 0 true ⟨false, 0, 0⟩
      AggregatorState.new :=
  aggregate_window_deterministic _ _ _ _ _ _ _ _ _ _ _ _ _ _
    rfl rfl rfl rfl rfl rfl rfl
